import Mathlib

/-!
Shallow embedding of `src/PutsAndCalls.py`.

The script computes profit/loss curves for a cash-secured put and a covered
call over a synthetic price grid, then derives the break-even price and the
interpolated profit/loss at the current price.  Prices and money amounts are
modelled as rationals (the Python code uses floats; all the formulas are
exact affine arithmetic, so ℚ is a faithful exact model).  `numpy.linspace`,
`numpy.where` over the grid, and `numpy.interp` are embedded directly.
-/

/-- Result dictionary of `calculate_put_returns` / `calculate_call_returns`:
`{"prices": ..., "profit_loss": ...}`. -/
structure Returns where
  prices : List ℚ
  profit_loss : List ℚ

/-- `numpy.linspace a b n`: `n` evenly spaced samples from `a` to `b`
inclusive, sample `i` being `a + (b - a) * i / (n - 1)`. -/
def linspace (a b : ℚ) (n : ℕ) : List ℚ :=
  (List.range n).map (fun i : ℕ => a + (b - a) * (i : ℚ) / ((n : ℚ) - 1))

/-- Per-price branch of the `numpy.where` in `calculate_put_returns`
(lines 23-27): `premium * contract_size` when `p >= strike_price`, else
`(p - (strike_price - premium)) * contract_size`. -/
def put_payoff (strike_price premium contract_size p : ℚ) : ℚ :=
  if p ≥ strike_price then premium * contract_size
  else (p - (strike_price - premium)) * contract_size

/-- `calculate_put_returns` (lines 6-32): grid
`linspace(current_price * 0.1, current_price * 2.0, 200)` and the put
profit/loss at each grid price. -/
def calculate_put_returns (strike_price premium current_price contract_size : ℚ) :
    Returns :=
  let prices := linspace (current_price * (1/10)) (current_price * 2) 200
  { prices := prices
    profit_loss := prices.map (put_payoff strike_price premium contract_size) }

/-- Per-price branch of the `numpy.where` in `calculate_call_returns`
(lines 51-55): `(premium + (p - current_price)) * contract_size` when
`p < strike_price`, else `(premium + (strike_price - current_price)) *
contract_size`. -/
def call_payoff (strike_price premium current_price contract_size p : ℚ) : ℚ :=
  if p < strike_price then (premium + (p - current_price)) * contract_size
  else (premium + (strike_price - current_price)) * contract_size

/-- `calculate_call_returns` (lines 34-60): grid
`linspace(current_price * 0.5, current_price * 2.0, 200)` and the call
profit/loss at each grid price. -/
def calculate_call_returns (strike_price premium current_price contract_size : ℚ) :
    Returns :=
  let prices := linspace (current_price * (1/2)) (current_price * 2) 200
  { prices := prices
    profit_loss := prices.map (call_payoff strike_price premium current_price contract_size) }

/-- Interior loop of `numpy.interp`: `x1, f1` is the last grid point already
passed; on each step either `x` lands in the segment `[x1, x2]` (linear
interpolation) or we advance.  Past the final point the last ordinate is
returned (right clamping). -/
def interp_go (x : ℚ) : ℚ → ℚ → List ℚ → List ℚ → ℚ
  | x1, f1, x2 :: xs, f2 :: fs =>
    if x ≤ x2 then f1 + (f2 - f1) * (x - x1) / (x2 - x1)
    else interp_go x x2 f2 xs fs
  | _, f1, _, _ => f1

/-- `numpy.interp x xp fp` for an increasing `xp` (line 74 of the source):
clamps to `fp.head` below the grid, to `fp.getLast` above it, and linearly
interpolates in between. -/
def interp (x : ℚ) (xp fp : List ℚ) : ℚ :=
  match xp, fp with
  | x1 :: xs, f1 :: fs => if x ≤ x1 then f1 else interp_go x x1 f1 xs fs
  | _, _ => 0

/-- `break_even` (line 80 of the source):
`strike_price - premium if title == "Cash-Secured Put Returns" else
current_price - premium`.  The boolean `is_put` stands for the string
comparison `title == "Cash-Secured Put Returns"`. -/
def break_even (is_put : Bool) (strike_price premium current_price : ℚ) : ℚ :=
  if is_put then strike_price - premium else current_price - premium

/-- `linspace a b n` has exactly `n` samples. -/
theorem linspace_length (a b : ℚ) (n : ℕ) : (linspace a b n).length = n := by
  rw [linspace, List.length_map, List.length_range]

/-- Sample `i` of `linspace a b n`. -/
theorem linspace_getElem? (a b : ℚ) {n i : ℕ} (h : i < n) :
    (linspace a b n)[i]? = some (a + (b - a) * i / (n - 1)) := by
  rw [linspace, List.getElem?_map, List.getElem?_range h, Option.map_some']

/-- The put grid is `linspace(current_price * 0.1, current_price * 2.0, 200)`. -/
theorem put_prices_def (strike_price premium current_price contract_size : ℚ) :
    (calculate_put_returns strike_price premium current_price contract_size).prices =
      linspace (current_price * (1/10)) (current_price * 2) 200 := rfl

/-- The put curve is the per-price payoff mapped over the put grid. -/
theorem put_profit_loss_def (strike_price premium current_price contract_size : ℚ) :
    (calculate_put_returns strike_price premium current_price contract_size).profit_loss =
      ((calculate_put_returns strike_price premium current_price contract_size).prices).map
        (put_payoff strike_price premium contract_size) := rfl

/-- The call grid is `linspace(current_price * 0.5, current_price * 2.0, 200)`. -/
theorem call_prices_def (strike_price premium current_price contract_size : ℚ) :
    (calculate_call_returns strike_price premium current_price contract_size).prices =
      linspace (current_price * (1/2)) (current_price * 2) 200 := rfl

/-- The call curve is the per-price payoff mapped over the call grid. -/
theorem call_profit_loss_def (strike_price premium current_price contract_size : ℚ) :
    (calculate_call_returns strike_price premium current_price contract_size).profit_loss =
      ((calculate_call_returns strike_price premium current_price contract_size).prices).map
        (call_payoff strike_price premium current_price contract_size) := rfl

/-- C1: for the cash-secured put, at every grid price `p` (with valid
parameters), the computed payoff is `premium * (contractSize * numberOfContracts)`
when `p ≥ strikePrice` and `(p - strikePrice + premium) * (contractSize *
numberOfContracts)` when `p < strikePrice`.  The Python function takes the
combined scale as its single `contract_size` argument (`main` passes
`contracts * 100`). -/
theorem put_payoff_on_grid (strike_price premium current_price cSize nContr : ℚ)
    (hs : 0 < strike_price) (hc : 0 < current_price)
    (h1 : 1 ≤ cSize) (h2 : 1 ≤ nContr) (i : ℕ) (p : ℚ)
    (hp : (calculate_put_returns strike_price premium current_price
      (cSize * nContr)).prices[i]? = some p) :
    (strike_price ≤ p →
      (calculate_put_returns strike_price premium current_price
        (cSize * nContr)).profit_loss[i]? = some (premium * (cSize * nContr))) ∧
    (p < strike_price →
      (calculate_put_returns strike_price premium current_price
        (cSize * nContr)).profit_loss[i]? =
        some ((p - strike_price + premium) * (cSize * nContr))) := by
  have hmap : (calculate_put_returns strike_price premium current_price
      (cSize * nContr)).profit_loss[i]? =
      some (put_payoff strike_price premium (cSize * nContr) p) := by
    rw [put_profit_loss_def, List.getElem?_map, hp, Option.map_some']
  constructor
  · intro hge
    rw [hmap]
    unfold put_payoff
    rw [if_pos hge]
  · intro hlt
    rw [hmap]
    unfold put_payoff
    rw [if_neg (not_le.mpr hlt)]
    congr 1
    ring

/-- Witness for C1 at the spec's scenario: strike 100, premium 2, current
price 100, 100 shares × 1 contract; grid point 0 is price 10, payoff −8800. -/
theorem put_payoff_on_grid_witness :
    (calculate_put_returns 100 2 100 (100 * 1)).profit_loss[0]? = some ((-8800 : ℚ)) := by
  have hp : (calculate_put_returns 100 2 100 (100 * 1)).prices[0]? = some 10 := by
    rw [put_prices_def, linspace_getElem? _ _ (by norm_num)]
    norm_num
  have h := (put_payoff_on_grid 100 2 100 100 1 (by norm_num) (by norm_num)
    (by norm_num) (by norm_num) 0 10 hp).2 (by norm_num)
  rw [h]
  norm_num

/-- C2: for the covered call, at every grid price `p` (with valid
parameters), the computed payoff is `(premium + (p - currentPrice)) * scale`
when `p ≤ strikePrice` and the capped constant `(premium + (strikePrice -
currentPrice)) * scale` when `p > strikePrice`, where `scale = contractSize *
numberOfContracts`.  At `p = strikePrice` the code takes the else-branch,
whose value coincides with the `≤` formula there. -/
theorem call_payoff_on_grid (strike_price premium current_price cSize nContr : ℚ)
    (hs : 0 < strike_price) (hc : 0 < current_price)
    (h1 : 1 ≤ cSize) (h2 : 1 ≤ nContr) (i : ℕ) (p : ℚ)
    (hp : (calculate_call_returns strike_price premium current_price
      (cSize * nContr)).prices[i]? = some p) :
    (p ≤ strike_price →
      (calculate_call_returns strike_price premium current_price
        (cSize * nContr)).profit_loss[i]? =
        some ((premium + (p - current_price)) * (cSize * nContr))) ∧
    (strike_price < p →
      (calculate_call_returns strike_price premium current_price
        (cSize * nContr)).profit_loss[i]? =
        some ((premium + (strike_price - current_price)) * (cSize * nContr))) := by
  have hmap : (calculate_call_returns strike_price premium current_price
      (cSize * nContr)).profit_loss[i]? =
      some (call_payoff strike_price premium current_price (cSize * nContr) p) := by
    rw [call_profit_loss_def, List.getElem?_map, hp, Option.map_some']
  constructor
  · intro hle
    rw [hmap]
    unfold call_payoff
    rcases lt_or_eq_of_le hle with h | h
    · rw [if_pos h]
    · rw [if_neg (by rw [h]; exact lt_irrefl _), h]
  · intro hgt
    rw [hmap]
    unfold call_payoff
    rw [if_neg (not_lt.mpr (le_of_lt hgt))]

/-- Witness for C2 at the spec's scenario: strike 100, premium 2, current
price 100, 100 shares × 1 contract; grid point 0 is price 50, payoff −4800. -/
theorem call_payoff_on_grid_witness :
    (calculate_call_returns 100 2 100 (100 * 1)).profit_loss[0]? = some ((-4800 : ℚ)) := by
  have hp : (calculate_call_returns 100 2 100 (100 * 1)).prices[0]? = some 50 := by
    rw [call_prices_def, linspace_getElem? _ _ (by norm_num)]
    norm_num
  have h := (call_payoff_on_grid 100 2 100 100 1 (by norm_num) (by norm_num)
    (by norm_num) (by norm_num) 0 50 hp).1 (by norm_num)
  rw [h]
  norm_num

/-- C5: the break-even price is `strikePrice - premium` for the put title and
`currentPrice - premium` otherwise; in the scenario strike 100, premium 2
(put) it is 98. -/
theorem break_even_formula (strike_price premium current_price : ℚ) :
    break_even true strike_price premium current_price = strike_price - premium ∧
    break_even false strike_price premium current_price = current_price - premium ∧
    break_even true 100 2 current_price = 98 := by
  refine ⟨rfl, rfl, ?_⟩
  unfold break_even
  norm_num

/-- C6: both payoffs are continuous at the kink: the value the at-strike
branch produces equals the other branch's formula evaluated at
`p = strikePrice`, for all valid parameters. -/
theorem payoff_continuous_at_strike (strike_price premium current_price contract_size : ℚ)
    (hs : 0 < strike_price) (hc : 0 < current_price) (h1 : 1 ≤ contract_size) :
    put_payoff strike_price premium contract_size strike_price =
      (strike_price - (strike_price - premium)) * contract_size ∧
    call_payoff strike_price premium current_price contract_size strike_price =
      (premium + (strike_price - current_price)) * contract_size := by
  constructor
  · unfold put_payoff
    rw [if_pos (le_refl strike_price)]
    ring
  · unfold call_payoff
    rw [if_neg (lt_irrefl strike_price)]

/-- Witness for C6 at strike 100, premium 2, current price 100, scale 100. -/
theorem payoff_continuous_at_strike_witness :
    put_payoff 100 2 100 100 = (100 - (100 - 2)) * 100 ∧
    call_payoff 100 2 100 100 100 = (2 + (100 - 100)) * 100 :=
  payoff_continuous_at_strike 100 2 100 100 (by norm_num) (by norm_num) (by norm_num)

/-- C3 counterexample: at the allegedly rejected inputs strikePrice = 0,
currentPrice = −5, contractSize = 0 (premium 1) both computations run to
completion and return a full 200-point result instead of failing; the first
put curve value is 0. -/
theorem invalid_parameters_still_compute :
    (calculate_put_returns 0 1 (-5) 0).prices.length = 200 ∧
    (calculate_put_returns 0 1 (-5) 0).profit_loss.length = 200 ∧
    (calculate_put_returns 0 1 (-5) 0).profit_loss[0]? = some 0 ∧
    (calculate_call_returns 0 1 (-5) 0).prices.length = 200 ∧
    (calculate_call_returns 0 1 (-5) 0).profit_loss.length = 200 := by
  refine ⟨?_, ?_, ?_, ?_, ?_⟩
  · rw [put_prices_def]
    exact linspace_length _ _ _
  · rw [put_profit_loss_def, List.length_map, put_prices_def]
    exact linspace_length _ _ _
  · rw [put_profit_loss_def, List.getElem?_map, put_prices_def,
      linspace_getElem? _ _ (show 0 < 200 by norm_num), Option.map_some']
    norm_num [put_payoff]
  · rw [call_prices_def]
    exact linspace_length _ _ _
  · rw [call_profit_loss_def, List.length_map, call_prices_def]
    exact linspace_length _ _ _

/-- C3 amended: the payoff computation performs no parameter validation and
has no failure mode at all: for every input, valid or not, it totally
computes a 200-entry grid and a 200-entry curve. -/
theorem returns_total_no_validation (strike_price premium current_price contract_size : ℚ) :
    (calculate_put_returns strike_price premium current_price contract_size).prices.length = 200 ∧
    (calculate_put_returns strike_price premium current_price contract_size).profit_loss.length = 200 ∧
    (calculate_call_returns strike_price premium current_price contract_size).prices.length = 200 ∧
    (calculate_call_returns strike_price premium current_price contract_size).profit_loss.length = 200 := by
  refine ⟨?_, ?_, ?_, ?_⟩
  · rw [put_prices_def]
    exact linspace_length _ _ _
  · rw [put_profit_loss_def, List.length_map, put_prices_def]
    exact linspace_length _ _ _
  · rw [call_prices_def]
    exact linspace_length _ _ _
  · rw [call_profit_loss_def, List.length_map, call_prices_def]
    exact linspace_length _ _ _

/-- C4 counterexample: at currentPrice = 100 the put grid does not have 100
entries, nor does it start at 0.5 × currentPrice = 50, nor do the two
variants share bounds (the put grid starts at 10, the call grid at 50). -/
theorem grid_claim_fails_at_100 :
    ¬ ((calculate_put_returns 100 2 100 100).prices.length = 100 ∧
       (calculate_put_returns 100 2 100 100).prices[0]? = some 50) := by
  intro h
  have h1 := h.1
  have h2 : (calculate_put_returns 100 2 100 100).prices.length = 200 := by
    rw [put_prices_def]
    exact linspace_length _ _ _
  omega

/-- C4 amended: for every currentPrice > 0 both grids have exactly 200
evenly spaced entries, but with variant-specific bounds: the put grid spans
[0.1 × currentPrice, 2.0 × currentPrice] and the call grid spans
[0.5 × currentPrice, 2.0 × currentPrice] (entry `i` is an affine function
of `i`, so spacing is even). -/
theorem grid_bounds (strike_price premium current_price contract_size : ℚ)
    (hc : 0 < current_price) :
    (calculate_put_returns strike_price premium current_price contract_size).prices.length = 200 ∧
    (calculate_call_returns strike_price premium current_price contract_size).prices.length = 200 ∧
    (∀ i : ℕ, i < 200 →
      (calculate_put_returns strike_price premium current_price contract_size).prices[i]? =
        some (current_price * (1/10) +
          (current_price * 2 - current_price * (1/10)) * i / 199)) ∧
    (∀ i : ℕ, i < 200 →
      (calculate_call_returns strike_price premium current_price contract_size).prices[i]? =
        some (current_price * (1/2) +
          (current_price * 2 - current_price * (1/2)) * i / 199)) := by
  refine ⟨?_, ?_, ?_, ?_⟩
  · rw [put_prices_def]
    exact linspace_length _ _ _
  · rw [call_prices_def]
    exact linspace_length _ _ _
  · intro i hi
    rw [put_prices_def, linspace_getElem? _ _ hi]
    norm_num
  · intro i hi
    rw [call_prices_def, linspace_getElem? _ _ hi]
    norm_num

/-- Witness for the amended C4 at currentPrice = 1: the put grid starts at
1/10. -/
theorem grid_bounds_witness :
    (calculate_put_returns 1 1 1 1).prices[0]? = some (1/10) := by
  have h := (grid_bounds 1 1 1 1 (by norm_num)).2.2.1 0 (by norm_num)
  rw [h]
  norm_num

/-- C10: both per-price payoff functions are monotonically non-decreasing in
the underlying price: for contract scale ≥ 1 and prices p1 ≤ p2 the payoff
at p1 is at most the payoff at p2. -/
theorem payoff_monotone (strike_price premium current_price contract_size p1 p2 : ℚ)
    (hcs : 1 ≤ contract_size) (hp : p1 ≤ p2) :
    put_payoff strike_price premium contract_size p1 ≤
      put_payoff strike_price premium contract_size p2 ∧
    call_payoff strike_price premium current_price contract_size p1 ≤
      call_payoff strike_price premium current_price contract_size p2 := by
  have hcs0 : (0 : ℚ) ≤ contract_size := le_trans zero_le_one hcs
  constructor
  · unfold put_payoff
    by_cases h1 : p1 ≥ strike_price
    · rw [if_pos h1, if_pos (le_trans h1 hp)]
    · rw [if_neg h1]
      push_neg at h1
      by_cases h2 : p2 ≥ strike_price
      · rw [if_pos h2]
        exact mul_le_mul_of_nonneg_right (by linarith) hcs0
      · rw [if_neg h2]
        exact mul_le_mul_of_nonneg_right (by linarith) hcs0
  · unfold call_payoff
    by_cases h1 : p1 < strike_price
    · rw [if_pos h1]
      by_cases h2 : p2 < strike_price
      · rw [if_pos h2]
        exact mul_le_mul_of_nonneg_right (by linarith) hcs0
      · rw [if_neg h2]
        exact mul_le_mul_of_nonneg_right (by linarith) hcs0
    · rw [if_neg h1]
      push_neg at h1
      rw [if_neg (not_lt.mpr (le_trans h1 hp))]

/-- Witness for C10 at strike 100, premium 2, scale 100, prices 90 ≤ 110. -/
theorem payoff_monotone_witness :
    put_payoff 100 2 100 90 ≤ put_payoff 100 2 100 110 ∧
    call_payoff 100 2 100 100 90 ≤ call_payoff 100 2 100 100 110 :=
  payoff_monotone 100 2 100 100 90 110 (by norm_num) (by norm_num)

/-- `getElem` form of `linspace_getElem?`. -/
theorem linspace_getElem (a b : ℚ) {n i : ℕ} (h : i < n)
    (h2 : i < (linspace a b n).length) :
    (linspace a b n)[i] = a + (b - a) * i / ((n : ℚ) - 1) := by
  have hq := linspace_getElem? a b h
  rw [List.getElem?_eq_getElem h2] at hq
  exact Option.some.inj hq

/-- `linspace a b n` is strictly increasing when `a < b`. -/
theorem linspace_pairwise (a b : ℚ) (n : ℕ) (hab : a < b) :
    (linspace a b n).Pairwise (· < ·) := by
  rw [List.pairwise_iff_getElem]
  intro i j hi2 hj2 hij
  have hlen : (linspace a b n).length = n := linspace_length a b n
  have hi : i < n := hlen ▸ hi2
  have hj : j < n := hlen ▸ hj2
  rw [linspace_getElem a b hi hi2, linspace_getElem a b hj hj2]
  have hn : (2 : ℚ) ≤ (n : ℚ) := by
    have : 2 ≤ n := by omega
    exact_mod_cast this
  have hden : (0 : ℚ) < (n : ℚ) - 1 := by linarith
  have hijq : (i : ℚ) < (j : ℚ) := by exact_mod_cast hij
  have hmul : (b - a) * (i : ℚ) < (b - a) * (j : ℚ) :=
    mul_lt_mul_of_pos_left hijq (by linarith)
  have := (div_lt_div_iff_of_pos_right hden).mpr hmul
  linarith

/-- C8: for every currentPrice > 0 and both variants, the grid is strictly
increasing with exactly 200 entries, and the curve has exactly one entry per
grid entry. -/
theorem grid_increasing (strike_price premium current_price contract_size : ℚ)
    (hc : 0 < current_price) :
    ((calculate_put_returns strike_price premium current_price contract_size).prices.Pairwise
        (· < ·) ∧
      (calculate_put_returns strike_price premium current_price contract_size).prices.length =
        200 ∧
      (calculate_put_returns strike_price premium current_price contract_size).profit_loss.length =
        (calculate_put_returns strike_price premium current_price contract_size).prices.length) ∧
    ((calculate_call_returns strike_price premium current_price contract_size).prices.Pairwise
        (· < ·) ∧
      (calculate_call_returns strike_price premium current_price contract_size).prices.length =
        200 ∧
      (calculate_call_returns strike_price premium current_price contract_size).profit_loss.length =
        (calculate_call_returns strike_price premium current_price contract_size).prices.length) := by
  refine ⟨⟨?_, ?_, ?_⟩, ⟨?_, ?_, ?_⟩⟩
  · rw [put_prices_def]
    exact linspace_pairwise _ _ _ (by linarith)
  · rw [put_prices_def]
    exact linspace_length _ _ _
  · rw [put_profit_loss_def, List.length_map]
  · rw [call_prices_def]
    exact linspace_pairwise _ _ _ (by linarith)
  · rw [call_prices_def]
    exact linspace_length _ _ _
  · rw [call_profit_loss_def, List.length_map]

/-- Witness for C8 at currentPrice = 1. -/
theorem grid_increasing_witness :
    (calculate_put_returns 1 1 1 1).prices.Pairwise (· < ·) ∧
    (calculate_call_returns 1 1 1 1).prices.length = 200 :=
  ⟨(grid_increasing 1 1 1 1 (by norm_num)).1.1,
   (grid_increasing 1 1 1 1 (by norm_num)).2.2.1⟩

/-- C9: for every currentPrice > 0 the current price lies strictly inside
both grids: the put grid runs from 0.1 × currentPrice to 2 × currentPrice,
the call grid from 0.5 × currentPrice to 2 × currentPrice, and in each case
the first entry is below currentPrice and the last entry above it, so the
interpolation at currentPrice never takes a clamping branch. -/
theorem current_price_inside_grid (strike_price premium current_price contract_size : ℚ)
    (hc : 0 < current_price) :
    ((calculate_put_returns strike_price premium current_price contract_size).prices[0]? =
        some (current_price * (1/10)) ∧
      current_price * (1/10) < current_price ∧
      (calculate_put_returns strike_price premium current_price contract_size).prices[199]? =
        some (current_price * 2) ∧
      current_price < current_price * 2) ∧
    ((calculate_call_returns strike_price premium current_price contract_size).prices[0]? =
        some (current_price * (1/2)) ∧
      current_price * (1/2) < current_price ∧
      (calculate_call_returns strike_price premium current_price contract_size).prices[199]? =
        some (current_price * 2) ∧
      current_price < current_price * 2) := by
  refine ⟨⟨?_, by linarith, ?_, by linarith⟩, ⟨?_, by linarith, ?_, by linarith⟩⟩
  · rw [put_prices_def, linspace_getElem? _ _ (show 0 < 200 by norm_num)]
    norm_num
  · rw [put_prices_def, linspace_getElem? _ _ (show 199 < 200 by norm_num)]
    congr 1
    push_cast
    ring
  · rw [call_prices_def, linspace_getElem? _ _ (show 0 < 200 by norm_num)]
    norm_num
  · rw [call_prices_def, linspace_getElem? _ _ (show 199 < 200 by norm_num)]
    congr 1
    push_cast
    ring

/-- Witness for C9 at currentPrice = 1. -/
theorem current_price_inside_grid_witness :
    (calculate_put_returns 1 1 1 1).prices[0]? = some (1 * (1/10)) ∧
    (1 : ℚ) * (1/10) < 1 :=
  ⟨(current_price_inside_grid 1 1 1 1 (by norm_num)).1.1,
   (current_price_inside_grid 1 1 1 1 (by norm_num)).1.2.1⟩

/-- Unfolding equation of `interp_go` at a cons/cons step. -/
theorem interp_go_cons (x x1 f1 x2 f2 : ℚ) (xs fs : List ℚ) :
    interp_go x x1 f1 (x2 :: xs) (f2 :: fs) =
      if x ≤ x2 then f1 + (f2 - f1) * (x - x1) / (x2 - x1)
      else interp_go x x2 f2 xs fs := rfl

/-- Unfolding equation of `interp_go` past the final grid point. -/
theorem interp_go_nil (x x1 f1 : ℚ) (fs : List ℚ) :
    interp_go x x1 f1 [] fs = f1 := rfl

/-- Unfolding equation of `interp` on nonempty inputs. -/
theorem interp_cons (x x1 f1 : ℚ) (xs fs : List ℚ) :
    interp x (x1 :: xs) (f1 :: fs) =
      if x ≤ x1 then f1 else interp_go x x1 f1 xs fs := rfl

/-- When `x` lies beyond every remaining grid point, `interp_go` returns the
final ordinate. -/
theorem interp_go_past (x : ℚ) : ∀ (xs fs : List ℚ) (x1 f1 : ℚ),
    xs.length = fs.length → (∀ y ∈ xs, y < x) →
    interp_go x x1 f1 xs fs = fs.getLastD f1 := by
  intro xs
  induction xs with
  | nil =>
    intro fs x1 f1 hlen _
    cases fs with
    | nil => rfl
    | cons f2 fs => exact absurd hlen (by simp)
  | cons x2 xs ih =>
    intro fs x1 f1 hlen hmem
    cases fs with
    | nil => exact absurd hlen (by simp)
    | cons f2 fs =>
      rw [interp_go_cons, if_neg (not_le.mpr (hmem x2 (List.mem_cons_self x2 xs)))]
      rw [ih fs x2 f2 (by simpa using hlen) (fun y hy => hmem y (List.mem_cons_of_mem _ hy))]
      cases fs with
      | nil => rfl
      | cons f3 fs => rfl

/-- The default-carrying last element of `f1 :: fs` is its entry at the last
index. -/
theorem getLastD_eq_getElem_last : ∀ (fs : List ℚ) (f1 : ℚ),
    some (fs.getLastD f1) = (f1 :: fs)[fs.length]? := by
  intro fs
  induction fs with
  | nil => intro f1; rfl
  | cons f2 fs ih =>
    intro f1
    have h1 : (f2 :: fs).getLastD f1 = fs.getLastD f2 := by
      cases fs with
      | nil => rfl
      | cons f3 fs => rfl
    have h2 : (f1 :: f2 :: fs)[(f2 :: fs).length]? = (f2 :: fs)[fs.length]? := by
      rw [List.length_cons, List.getElem?_cons_succ]
    rw [h1, h2]
    exact ih f2

/-- In a strictly increasing list every entry is at most the entry at the
last index. -/
theorem sorted_getElem?_le (l : List ℚ) (hsort : l.Pairwise (· < ·)) (i : ℕ) (y xl : ℚ)
    (hy : l[i]? = some y) (hxl : l[l.length - 1]? = some xl) : y ≤ xl := by
  have hi : i < l.length := by
    by_contra hcon
    rw [List.getElem?_eq_none (le_of_not_lt hcon)] at hy
    exact Option.noConfusion hy
  have hlast : l.length - 1 < l.length := by omega
  have hyv : l[i] = y := by
    rw [List.getElem?_eq_getElem hi] at hy
    exact Option.some.inj hy
  have hxlv : l[l.length - 1] = xl := by
    rw [List.getElem?_eq_getElem hlast] at hxl
    exact Option.some.inj hxl
  rcases Nat.lt_or_ge i (l.length - 1) with h | h
  · have hlt := List.pairwise_iff_getElem.mp hsort i (l.length - 1) hi hlast h
    rw [hyv, hxlv] at hlt
    exact le_of_lt hlt
  · have hieq : i = l.length - 1 := by omega
    subst hieq
    exact le_of_eq (hyv.symm.trans hxlv)

/-- When the query hits remaining grid point `j` exactly, `interp_go`
returns ordinate `j` exactly (the segment formula collapses). -/
theorem interp_go_at : ∀ (xs fs : List ℚ) (x1 f1 : ℚ) (j : ℕ) (p v : ℚ),
    (x1 :: xs).Pairwise (· < ·) → xs[j]? = some p → fs[j]? = some v →
    interp_go p x1 f1 xs fs = v := by
  intro xs
  induction xs with
  | nil =>
    intro fs x1 f1 j p v _ hp _
    rw [List.getElem?_nil] at hp
    exact Option.noConfusion hp
  | cons x2 xs ih =>
    intro fs x1 f1 j p v hpw hp hv
    cases fs with
    | nil =>
      rw [List.getElem?_nil] at hv
      exact Option.noConfusion hv
    | cons f2 fs =>
      obtain ⟨h1, h2⟩ := List.pairwise_cons.mp hpw
      cases j with
      | zero =>
        rw [List.getElem?_cons_zero] at hp hv
        obtain rfl : x2 = p := Option.some.inj hp
        obtain rfl : f2 = v := Option.some.inj hv
        rw [interp_go_cons, if_pos (le_refl x2)]
        have hne : x2 - x1 ≠ 0 :=
          sub_ne_zero.mpr (ne_of_gt (h1 x2 (List.mem_cons_self x2 xs)))
        rw [mul_div_assoc, div_self hne, mul_one]
        ring
      | succ k =>
        rw [List.getElem?_cons_succ] at hp hv
        have hx2p : x2 < p :=
          (List.pairwise_cons.mp h2).1 p (List.getElem?_mem hp)
        rw [interp_go_cons, if_neg (not_le.mpr hx2p)]
        exact ih fs x2 f2 k p v h2 hp hv

/-- When the query lies in the segment between remaining grid points `j` and
`j + 1` (indices into the full grid `x1 :: xs`), `interp_go` returns the
standard linear-interpolation formula for that segment. -/
theorem interp_go_segment : ∀ (xs fs : List ℚ) (x1 f1 x : ℚ) (j : ℕ) (a b fa fb : ℚ),
    (x1 :: xs).Pairwise (· < ·) →
    (x1 :: xs)[j]? = some a → (x1 :: xs)[j + 1]? = some b →
    (f1 :: fs)[j]? = some fa → (f1 :: fs)[j + 1]? = some fb →
    a ≤ x → x ≤ b →
    interp_go x x1 f1 xs fs = fa + (fb - fa) * (x - a) / (b - a) := by
  intro xs
  induction xs with
  | nil =>
    intro fs x1 f1 x j a b fa fb _ _ hb _ _ _ _
    rw [List.getElem?_cons_succ, List.getElem?_nil] at hb
    exact Option.noConfusion hb
  | cons x2 xs ih =>
    intro fs x1 f1 x j a b fa fb hpw ha hb hfa hfb hax hxb
    obtain ⟨h1, h2⟩ := List.pairwise_cons.mp hpw
    cases fs with
    | nil =>
      rw [List.getElem?_cons_succ] at hfb
      rw [List.getElem?_nil] at hfb
      exact Option.noConfusion hfb
    | cons f2 fs =>
      cases j with
      | zero =>
        rw [List.getElem?_cons_zero] at ha hfa
        rw [List.getElem?_cons_succ, List.getElem?_cons_zero] at hb hfb
        obtain rfl : x1 = a := Option.some.inj ha
        obtain rfl : x2 = b := Option.some.inj hb
        obtain rfl : f1 = fa := Option.some.inj hfa
        obtain rfl : f2 = fb := Option.some.inj hfb
        rw [interp_go_cons, if_pos hxb]
      | succ k =>
        rw [List.getElem?_cons_succ] at ha hb hfa hfb
        by_cases hx2 : x ≤ x2
        · cases k with
          | zero =>
            rw [List.getElem?_cons_zero] at ha hfa
            rw [List.getElem?_cons_succ] at hb hfb
            obtain rfl : x2 = a := Option.some.inj ha
            obtain rfl : f2 = fa := Option.some.inj hfa
            have hxeq : x = x2 := le_antisymm hx2 hax
            have hne : x2 - x1 ≠ 0 :=
              sub_ne_zero.mpr (ne_of_gt (h1 x2 (List.mem_cons_self x2 xs)))
            have hx2b : x2 < b :=
              (List.pairwise_cons.mp h2).1 b (List.getElem?_mem hb)
            have hbne : b - x2 ≠ 0 := sub_ne_zero.mpr (ne_of_gt hx2b)
            rw [interp_go_cons, if_pos hx2, hxeq, mul_div_assoc, div_self hne,
              mul_one, sub_self, mul_zero, zero_div, add_zero]
            ring
          | succ m =>
            rw [List.getElem?_cons_succ] at ha
            have hx2a : x2 < a :=
              (List.pairwise_cons.mp h2).1 a (List.getElem?_mem ha)
            exact absurd hax (not_le.mpr (lt_of_le_of_lt hx2 hx2a))
        · push_neg at hx2
          rw [interp_go_cons, if_neg (not_le.mpr hx2)]
          exact ih fs x2 f2 x k a b fa fb h2 ha hb hfa hfb hax hxb

/-- C7: for a strictly increasing grid `xp` and an equally long curve `fp`,
`interp` (the embedding of `numpy.interp` computing `currentPayoff`) clamps
to the first curve value at or below the first grid point, clamps to the
last curve value beyond the last grid point, reproduces the curve value
exactly whenever the query coincides with a grid entry, and applies the
standard linear-interpolation formula on each grid segment containing the
query. -/
theorem interp_current_payoff (xp fp : List ℚ) (x : ℚ)
    (hsort : xp.Pairwise (· < ·)) (hlen : xp.length = fp.length) :
    (∀ x1 f1, xp[0]? = some x1 → fp[0]? = some f1 → x ≤ x1 → interp x xp fp = f1) ∧
    (∀ xl fl, xp[xp.length - 1]? = some xl → fp[fp.length - 1]? = some fl → xl < x →
      interp x xp fp = fl) ∧
    (∀ (i : ℕ) (p v : ℚ), xp[i]? = some p → fp[i]? = some v → interp p xp fp = v) ∧
    (∀ (i : ℕ) (a b fa fb : ℚ), xp[i]? = some a → xp[i + 1]? = some b →
      fp[i]? = some fa → fp[i + 1]? = some fb → a ≤ x → x ≤ b →
      interp x xp fp = fa + (fb - fa) * (x - a) / (b - a)) := by
  cases xp with
  | nil =>
    refine ⟨?_, ?_, ?_, ?_⟩
    · intro a b ha _ _
      rw [List.getElem?_nil] at ha
      exact Option.noConfusion ha
    · intro a b ha _ _
      rw [List.getElem?_nil] at ha
      exact Option.noConfusion ha
    · intro i p v hp _
      rw [List.getElem?_nil] at hp
      exact Option.noConfusion hp
    · intro i a b fa fb ha _ _ _ _ _
      rw [List.getElem?_nil] at ha
      exact Option.noConfusion ha
  | cons x1 xs =>
    cases fp with
    | nil => exact absurd hlen (by simp)
    | cons f1 fs =>
      have hlen2 : xs.length = fs.length := by simpa using hlen
      refine ⟨?_, ?_, ?_, ?_⟩
      · intro a b ha hb hx
        rw [List.getElem?_cons_zero] at ha hb
        obtain rfl : x1 = a := Option.some.inj ha
        obtain rfl : f1 = b := Option.some.inj hb
        rw [interp_cons, if_pos hx]
      · intro xl fl hxl hfl hlt
        have hx1 : x1 ≤ xl :=
          sorted_getElem?_le (x1 :: xs) hsort 0 x1 xl List.getElem?_cons_zero hxl
        have hx1x : x1 < x := lt_of_le_of_lt hx1 hlt
        rw [interp_cons, if_neg (not_le.mpr hx1x)]
        have hall : ∀ y ∈ xs, y < x := by
          intro y hy
          obtain ⟨j, hj⟩ := List.getElem?_of_mem hy
          have hyle : y ≤ xl := by
            refine sorted_getElem?_le (x1 :: xs) hsort (j + 1) y xl ?_ hxl
            rw [List.getElem?_cons_succ]
            exact hj
          exact lt_of_le_of_lt hyle hlt
        rw [interp_go_past x xs fs x1 f1 hlen2 hall]
        have hfl2 : (f1 :: fs)[fs.length]? = some fl := by
          have : (f1 :: fs).length - 1 = fs.length := by simp
          rw [← this]
          exact hfl
        exact Option.some.inj ((getLastD_eq_getElem_last fs f1).trans hfl2)
      · intro i p v hp hv
        cases i with
        | zero =>
          rw [List.getElem?_cons_zero] at hp hv
          obtain rfl : x1 = p := Option.some.inj hp
          obtain rfl : f1 = v := Option.some.inj hv
          rw [interp_cons, if_pos (le_refl x1)]
        | succ k =>
          rw [List.getElem?_cons_succ] at hp hv
          have hx1p : x1 < p :=
            (List.pairwise_cons.mp hsort).1 p (List.getElem?_mem hp)
          rw [interp_cons, if_neg (not_le.mpr hx1p)]
          exact interp_go_at xs fs x1 f1 k p v hsort hp hv
      · intro i a b fa fb ha hb hfa hfb hax hxb
        by_cases hx : x ≤ x1
        · cases i with
          | zero =>
            rw [List.getElem?_cons_zero] at ha hfa
            obtain rfl : x1 = a := Option.some.inj ha
            obtain rfl : f1 = fa := Option.some.inj hfa
            have hxx1 : x = x1 := le_antisymm hx hax
            rw [interp_cons, if_pos hx, hxx1, sub_self, mul_zero, zero_div, add_zero]
          | succ m =>
            rw [List.getElem?_cons_succ] at ha
            have hx1a : x1 < a :=
              (List.pairwise_cons.mp hsort).1 a (List.getElem?_mem ha)
            exact absurd hax (not_le.mpr (lt_of_le_of_lt hx hx1a))
        · push_neg at hx
          rw [interp_cons, if_neg (not_le.mpr hx)]
          exact interp_go_segment xs fs x1 f1 x i a b fa fb hsort ha hb hfa hfb hax hxb

/-- Witness for C7: on the grid 1, 2, 3 with curve 10, 20, 40, interpolating
at the grid entry 2 returns the curve value 20 exactly. -/
theorem interp_current_payoff_witness :
    interp 2 [1, 2, 3] [10, 20, 40] = 20 :=
  (interp_current_payoff [1, 2, 3] [10, 20, 40] 2 (by decide) (by decide)).2.2.1
    1 2 20 (by decide) (by decide)
